import Mathlib

/-!
Verification of the image-compressor component
(`src/components/image-compressor.tsx`).

The component keeps an array `images : ImageData[]` in React state, a
per-index map of debounce timers in a ref, and a set of live object URLs
created by `URL.createObjectURL` and released by `URL.revokeObjectURL`.
We embed the item record, the registry state, and each mutating code path
as explicit Lean functions; object-URL handles are modelled as naturals
allocated from a counter `nextHandle`, with the multiset of live handles
kept as a list.  Numeric fields parsed from the free-text inputs
(`img.width ? Number.parseInt(img.width) : ...`) are modelled as
`Option Int`: `none` for the empty string (falsy), `some v` for a string
parsing to `v`.  JavaScript float arithmetic in the dimension resolver and
the size formatter is modelled over `ℚ`.
-/

namespace ImageCompressor

/-- JavaScript `Math.round`: nearest integer, halves toward positive
infinity, i.e. `⌊q + 1/2⌋`. -/
def mathRound (q : ℚ) : ℤ := ⌊q + 1 / 2⌋

/-- JavaScript truthiness applied to a parsed numeric target, as in
`if (targetWidth && targetHeight)`: `0` (and absence) is falsy, every
other number is truthy. -/
def truthy : Option Int → Option Int
  | none => none
  | some v => if v = 0 then none else some v

/-- One element of the `images` array (`interface ImageData` /
`CompressedImage` in the source).  `file` is modelled by an opaque
identity `fileId`; `preview` and `compressedPreview` are object-URL
handles; `compressed` is the identity of the final AVIF blob;
`width`/`height` hold the parsed content of the free-text inputs
(`none` = empty string). -/
structure ImageItem where
  fileId : Nat
  preview : Nat
  compressedPreview : Option Nat
  compressed : Option Nat
  originalSize : Nat
  compressedSize : Option Nat
  processing : Bool
  dimensions : Option (Int × Int)
  quality : Int
  width : Option Int
  height : Option Int
deriving DecidableEq

/-- Source function `calculateFinalDimensions` (lines 232–257).  Returns `null`
when dimensions were not probed yet; with no truthy target returns the
original dimensions; with both targets returns them unchanged; with one
target derives the other from the original aspect ratio
(`aspectRatio = width / height` in float arithmetic, modelled over `ℚ`)
rounded with `Math.round`. -/
def calculateFinalDimensions (img : ImageItem) : Option (Int × Int) :=
  match img.dimensions with
  | none => none
  | some (w, h) =>
    match truthy img.width, truthy img.height with
    | none, none => some (w, h)
    | some tw, some th => some (tw, th)
    | some tw, none =>
        let aspect : ℚ := (w : ℚ) / (h : ℚ)
        some (tw, mathRound ((tw : ℚ) / aspect))
    | none, some th =>
        let aspect : ℚ := (w : ℚ) / (h : ℚ)
        some (mathRound ((th : ℚ) * aspect), th)

/-- The unit array of `formatSize`: `const sizes = ["Bytes", "KB", "MB"]`. -/
def sizes : List String := ["Bytes", "KB", "MB"]

/-- Structured result of `formatSize`: the numeric part
`Math.round((bytes / k^i) * 100) / 100` and the unit looked up in
`sizes[i]`, where `none` models the out-of-bounds JavaScript result
`undefined`. -/
structure FormattedSize where
  value : ℚ
  unit : Option String
deriving DecidableEq

/-- Source function `formatSize` (lines 224–230).  `bytes === 0` returns the fixed
string `"0 Bytes"` (modelled as value `0`, unit `"Bytes"`); otherwise
`i = Math.floor(Math.log(bytes) / Math.log(1024))`, the floor logarithm
base 1024, modelled by `Nat.log`. -/
def formatSize (bytes : Nat) : FormattedSize :=
  if bytes = 0 then { value := 0, unit := some "Bytes" }
  else
    let i := Nat.log 1024 bytes
    { value := (mathRound (((bytes : ℚ) / (1024 : ℚ) ^ i) * 100) : ℚ) / 100,
      unit := sizes.get? i }

/-- The JavaScript copy-and-assign idiom used by every state updater:
`const a = [...prev]; a[i] = f(a[i]); return a`.  Out-of-range indices
leave the list unchanged (the mutating paths guard with
`const img = images[index]; if (!img) return`). -/
def updateAt {α : Type} : List α → Nat → (α → α) → List α
  | [], _, _ => []
  | x :: xs, 0, f => f x :: xs
  | x :: xs, n + 1, f => x :: updateAt xs n f

/-- Revocation via `URL.revokeObjectURL`: the handle stops being live. -/
def revoke (live : List Nat) (h : Nat) : List Nat :=
  live.filter (fun x => x ≠ h)

/-- A debounce timer as stored in `previewTimeoutRefs`
(`Map<number, Timeout>`): the array index it is keyed by, the quiet
window in milliseconds it was armed with, and the `images` value the
scheduled `updatePreview` closure will read.  The closure created inside
`updateImageSettings` refers to the `updatePreview` of the render that
created the event handler, so `snapshot` is the committed state from
before the mutation that armed the timer. -/
structure TimerRec where
  idx : Nat
  delay : Nat
  snapshot : List ImageItem
deriving DecidableEq

/-- The quiet window of the debounce scheduler: `setTimeout(..., 1500)`. -/
def DEBOUNCE_MS : Nat := 1500

/-- The component state: the `images` array, the armed debounce timers,
the ledger of live object-URL handles with its allocation counter, and a
count of user-visible error notifications (destructive `toast` calls). -/
structure AppState where
  images : List ImageItem
  timers : List TimerRec
  live : List Nat
  nextHandle : Nat
  errorCount : Nat
deriving DecidableEq

/-- The empty initial state: `useState<ImageData[]>([])`. -/
def initState : AppState :=
  { images := [], timers := [], live := [], nextHandle := 0, errorCount := 0 }

/-- An encode request handed to `compressImageWithJSquash(file, quality,
targetWidth, targetHeight, isPreview)`, with the JS-truthy parse
`img.width ? Number.parseInt(img.width) : undefined` applied to the
targets. -/
structure EncodeTask where
  index : Nat
  fileId : Nat
  quality : Int
  targetWidth : Option Int
  targetHeight : Option Int
  isPreview : Bool
deriving DecidableEq

/-- A single mutation of `updateImageSettings`: the field name and value
it is called with (width/height values already parsed from the input
string, `none` for the empty string). -/
inductive SettingUpdate where
  | quality (v : Int)
  | width (v : Option Int)
  | height (v : Option Int)
deriving DecidableEq

/-- The field assignment performed inside the `setImages` updater of
`updateImageSettings`. -/
def applySetting (it : ImageItem) : SettingUpdate → ImageItem
  | .quality v => { it with quality := v }
  | .width v => { it with width := v }
  | .height v => { it with height := v }

/-- Ingestion of one dropped/picked file (`handleDrop` lines 114–126 /
`handleFileInput`): appends a fresh item with `quality: 75` and empty
width/height.  Two object URLs are created: the stored `preview`
(`URL.createObjectURL(file)`) and the probe URL that `getImageDimensions`
assigns to `img.src` and never revokes. -/
def ingestImage (s : AppState) (fileId fileSize : Nat) (dims : Int × Int) : AppState :=
  let preview := s.nextHandle
  let probe := s.nextHandle + 1
  { s with
    nextHandle := s.nextHandle + 2,
    live := s.live ++ [preview, probe],
    images := s.images ++ [{
      fileId := fileId, preview := preview, compressedPreview := none,
      compressed := none, originalSize := fileSize, compressedSize := none,
      processing := false, dimensions := some dims, quality := 75,
      width := none, height := none }] }

/-- Source function `updateImageSettings` (lines 259–280): stores the new field
value unvalidated, cancels the index's pending timer if present
(`clearTimeout`), and arms a fresh 1500 ms timer whose callback invokes
the `updatePreview` closed over the `images` of the render that created
the handler — the committed array from before this mutation, hence
`snapshot := s.images`. -/
def updateImageSettings (s : AppState) (index : Nat) (u : SettingUpdate) : AppState :=
  { s with
    images := updateAt s.images index (fun it => applySetting it u),
    timers := (s.timers.filter (fun t => t.idx ≠ index)) ++
      [{ idx := index, delay := DEBOUNCE_MS, snapshot := s.images }] }

/-- The armed timer for `index` fires and runs `updatePreview` (source
lines 282–296) up to its suspension on `compressImageWithJSquash`: the
callback reads `images[index]` from its captured snapshot, returns doing
nothing if absent, otherwise marks the current item processing and
dispatches the encode with the snapshot's quality and truthy-parsed
targets (`isPreview = true`).  The fired timer ceases to be armed. -/
def fireTimer (s : AppState) (index : Nat) : AppState × Option EncodeTask :=
  match s.timers.find? (fun t => t.idx = index) with
  | none => (s, none)
  | some t =>
    let s1 := { s with timers := s.timers.filter (fun t => t.idx ≠ index) }
    match t.snapshot.get? index with
    | none => (s1, none)
    | some img =>
        ({ s1 with images := updateAt s1.images index (fun it => { it with processing := true }) },
         some { index := index, fileId := img.fileId, quality := img.quality,
                targetWidth := truthy img.width, targetHeight := truthy img.height,
                isPreview := true })

/-- The success continuation of `updatePreview` (source lines 296–311):
`URL.createObjectURL(blob)` allocates a fresh handle, then the
`setImages` updater revokes the previous `compressedPreview` occupant if
present and assigns the new handle, the blob size, and
`processing: false`. -/
def completePreviewSuccess (s : AppState) (index blobSize : Nat) : AppState :=
  let h := s.nextHandle
  let live1 := s.live ++ [h]
  let oldPrev := (s.images.get? index).bind (fun it => it.compressedPreview)
  let live2 := match oldPrev with
    | some o => revoke live1 o
    | none => live1
  { s with
    nextHandle := s.nextHandle + 1,
    live := live2,
    images := updateAt s.images index (fun it =>
      { it with compressedPreview := some h, compressedSize := some blobSize,
                processing := false }) }

/-- The catch branch of `updatePreview` (source lines 312–319): only
`console.error` plus `processing: false`; no toast, no re-arming. -/
def completePreviewFailure (s : AppState) (index : Nat) : AppState :=
  { s with images := updateAt s.images index (fun it => { it with processing := false }) }

/-- Source function `compressImage` (lines 159–173) up to its suspension: reads
the current committed item (the click handler belongs to the latest
render), marks it processing, and dispatches the final-mode encode with
its current settings. -/
def compressImageStart (s : AppState) (index : Nat) : AppState × Option EncodeTask :=
  match s.images.get? index with
  | none => (s, none)
  | some img =>
      ({ s with images := updateAt s.images index (fun it => { it with processing := true }) },
       some { index := index, fileId := img.fileId, quality := img.quality,
              targetWidth := truthy img.width, targetHeight := truthy img.height,
              isPreview := false })

/-- The success continuation of `compressImage` (source lines 175–195):
allocates the new preview handle, revokes the slot's previous occupant
if present, stores the final blob, its size, the handle, and clears
`processing`. -/
def compressImageSuccess (s : AppState) (index blobId blobSize : Nat) : AppState :=
  let h := s.nextHandle
  let live1 := s.live ++ [h]
  let oldPrev := (s.images.get? index).bind (fun it => it.compressedPreview)
  let live2 := match oldPrev with
    | some o => revoke live1 o
    | none => live1
  { s with
    nextHandle := s.nextHandle + 1,
    live := live2,
    images := updateAt s.images index (fun it =>
      { it with compressed := some blobId, compressedSize := some blobSize,
                compressedPreview := some h, processing := false }) }

/-- The catch branch of `compressImage` (source lines 196–208): a
destructive toast and `processing: false`; every other field and every
other item is untouched, and nothing is re-dispatched. -/
def compressImageFailure (s : AppState) (index : Nat) : AppState :=
  { s with
    errorCount := s.errorCount + 1,
    images := updateAt s.images index (fun it => { it with processing := false }) }

/-- Source function `removeImage` (lines 147–157): revokes the item's `preview`
and, if present, its `compressedPreview`, then splices the item out. -/
def removeImage (s : AppState) (index : Nat) : AppState :=
  match s.images.get? index with
  | none => s
  | some it =>
    let live1 := revoke s.live it.preview
    let live2 := match it.compressedPreview with
      | some c => revoke live1 c
      | none => live1
    { s with images := s.images.eraseIdx index, live := live2 }

/-- The success path of `applyCrop` (source lines 653–691) for the item
at `index`: `createCroppedImage` materialised the selected rectangle at
1:1 scale into a losslessly PNG-encoded blob (abstracted here as the new
source identity `newFileId` with byte size `newSize` and probed
dimensions `newDims`).  `URL.createObjectURL(blob)` allocates the new
preview handle, `getImageDimensions` allocates its never-revoked probe
URL, then the `setImages` updater revokes the old `preview` and any
`compressedPreview`, replaces `file`, `preview`, `originalSize` and
`dimensions`, and unsets `compressedPreview`, `compressed` and
`compressedSize`; the quality/width/height settings are spread through
unchanged. -/
def applyCropSuccess (s : AppState) (index : Nat) (newFileId newSize : Nat)
    (newDims : Int × Int) : AppState :=
  match s.images.get? index with
  | none => s
  | some it =>
    let newPreview := s.nextHandle
    let probe := s.nextHandle + 1
    let live1 := s.live ++ [newPreview, probe]
    let live2 := revoke live1 it.preview
    let live3 := match it.compressedPreview with
      | some c => revoke live2 c
      | none => live2
    { s with
      nextHandle := s.nextHandle + 2,
      live := live3,
      images := updateAt s.images index (fun old =>
        { old with fileId := newFileId, preview := newPreview,
                   originalSize := newSize, dimensions := some newDims,
                   compressedPreview := none, compressed := none,
                   compressedSize := none }) }

/-- The catch branch of `applyCrop` (source lines 692–699), reached when
`createCroppedImage` throws (no canvas context) or rejects (toBlob
returned null): a destructive toast only — no `setImages` runs, so the
whole registry, every item and every handle are exactly as before. -/
def applyCropFailure (s : AppState) : AppState :=
  { s with errorCount := s.errorCount + 1 }

/-- Iterated completed preview regenerations on one item, each with the
byte size its encode produced. -/
def runPreviews (s : AppState) (i : Nat) (szs : List Nat) : AppState :=
  szs.foldl (fun st sz => completePreviewSuccess st i sz) s

/-- Handles stored in an item's slots: the source `preview` URL plus the
`compressedPreview` occupant when present. -/
def handlesOf (it : ImageItem) : List Nat :=
  it.preview :: (match it.compressedPreview with
    | some h => [h]
    | none => [])

/-- Well-formedness of the handle ledger: every live handle and every
handle stored in an item was allocated below the counter, so freshly
allocated handles are distinct from all existing ones.  This holds for
every state reachable from `initState`. -/
def WF (s : AppState) : Prop :=
  (∀ h ∈ s.live, h < s.nextHandle) ∧
  (∀ it ∈ s.images, ∀ h ∈ handlesOf it, h < s.nextHandle)

instance (s : AppState) : Decidable (WF s) := by
  unfold WF; infer_instance

/-- The registry commands the rendering layer can dispatch, with the
asynchronous pipelines split at their suspension points: an encode or
crop started by a command completes later through its own success or
failure event. -/
inductive Command where
  | ingest (fileId fileSize : Nat) (dims : Int × Int)
  | updateSetting (index : Nat) (u : SettingUpdate)
  | fire (index : Nat)
  | previewSuccess (index blobSize : Nat)
  | previewFailure (index : Nat)
  | compressStart (index : Nat)
  | compressSuccess (index blobId blobSize : Nat)
  | compressFailure (index : Nat)
  | cropSuccess (index newFileId newSize : Nat) (newDims : Int × Int)
  | cropFailure
  | remove (index : Nat)
deriving DecidableEq

/-- Dispatch of one command to its state transformer. -/
def step (s : AppState) : Command → AppState
  | .ingest f sz d => ingestImage s f sz d
  | .updateSetting i u => updateImageSettings s i u
  | .fire i => (fireTimer s i).1
  | .previewSuccess i sz => completePreviewSuccess s i sz
  | .previewFailure i => completePreviewFailure s i
  | .compressStart i => (compressImageStart s i).1
  | .compressSuccess i b sz => compressImageSuccess s i b sz
  | .compressFailure i => compressImageFailure s i
  | .cropSuccess i f sz d => applyCropSuccess s i f sz d
  | .cropFailure => applyCropFailure s
  | .remove i => removeImage s i

/-- A command sequence applied from a state. -/
def runCommands (s : AppState) (cs : List Command) : AppState :=
  cs.foldl step s

/-- An optional parsed target that is nonnegative when present. -/
def nonnegOpt : Option Int → Prop
  | none => True
  | some v => 0 ≤ v

instance : ∀ o, Decidable (nonnegOpt o) := fun o => by
  cases o <;> unfold nonnegOpt <;> infer_instance

/-- An optional parsed target that is positive when present. -/
def posOpt : Option Int → Prop
  | none => True
  | some v => 0 < v

instance : ∀ o, Decidable (posOpt o) := fun o => by
  cases o <;> unfold posOpt <;> infer_instance

/-- The data-model invariant on one item's settings: quality within
`[1,100]` and no negative parsed width/height. -/
def SettingsInv (it : ImageItem) : Prop :=
  1 ≤ it.quality ∧ it.quality ≤ 100 ∧ nonnegOpt it.width ∧ nonnegOpt it.height

instance (it : ImageItem) : Decidable (SettingsInv it) := by
  unfold SettingsInv; infer_instance

/-- Commands whose supplied setting values respect the invariant: the
quality slider is constrained to `min={1} max={100}`, and widths/heights
are restricted to nonnegative entries.  `updateImageSettings` itself
performs no validation, so the invariant only survives under this
restriction on inputs. -/
def InRange : Command → Prop
  | .updateSetting _ (.quality v) => 1 ≤ v ∧ v ≤ 100
  | .updateSetting _ (.width v) => nonnegOpt v
  | .updateSetting _ (.height v) => nonnegOpt v
  | _ => True

instance : ∀ c, Decidable (InRange c)
  | .ingest _ _ _ => inferInstanceAs (Decidable True)
  | .updateSetting _ (.quality v) => inferInstanceAs (Decidable (1 ≤ v ∧ v ≤ 100))
  | .updateSetting _ (.width v) => inferInstanceAs (Decidable (nonnegOpt v))
  | .updateSetting _ (.height v) => inferInstanceAs (Decidable (nonnegOpt v))
  | .fire _ => inferInstanceAs (Decidable True)
  | .previewSuccess _ _ => inferInstanceAs (Decidable True)
  | .previewFailure _ => inferInstanceAs (Decidable True)
  | .compressStart _ => inferInstanceAs (Decidable True)
  | .compressSuccess _ _ _ => inferInstanceAs (Decidable True)
  | .compressFailure _ => inferInstanceAs (Decidable True)
  | .cropSuccess _ _ _ _ => inferInstanceAs (Decidable True)
  | .cropFailure => inferInstanceAs (Decidable True)
  | .remove _ => inferInstanceAs (Decidable True)

/-- A concrete item used to exercise the resolver: original 1000×500
with a requested width of 400, the example of the specification. -/
def sampleItem : ImageItem :=
  { fileId := 0, preview := 0, compressedPreview := none, compressed := none,
    originalSize := 3000, compressedSize := none, processing := false,
    dimensions := some (1000, 500), quality := 75, width := some 400,
    height := none }

theorem updateAt_length {α : Type} (l : List α) (i : Nat) (f : α → α) :
    (updateAt l i f).length = l.length := by
  induction l generalizing i with
  | nil => rfl
  | cons x xs ih =>
    cases i with
    | zero => rfl
    | succ n => simp [updateAt, ih]

theorem updateAt_get?_self {α : Type} (l : List α) (i : Nat) (f : α → α) :
    (updateAt l i f).get? i = (l.get? i).map f := by
  induction l generalizing i with
  | nil => rfl
  | cons x xs ih =>
    cases i with
    | zero => rfl
    | succ n => simpa [updateAt] using ih n

theorem updateAt_get?_ne {α : Type} (l : List α) {i j : Nat} (f : α → α) (h : j ≠ i) :
    (updateAt l i f).get? j = l.get? j := by
  induction l generalizing i j with
  | nil => rfl
  | cons x xs ih =>
    cases i with
    | zero =>
      cases j with
      | zero => exact absurd rfl h
      | succ m => rfl
    | succ n =>
      cases j with
      | zero => rfl
      | succ m => simpa [updateAt] using ih (show m ≠ n by omega)

theorem mem_updateAt {α : Type} {l : List α} {i : Nat} {f : α → α} {y : α}
    (hy : y ∈ updateAt l i f) : y ∈ l ∨ ∃ x, x ∈ l ∧ y = f x := by
  induction l generalizing i with
  | nil => simp [updateAt] at hy
  | cons x xs ih =>
    cases i with
    | zero =>
      rcases List.mem_cons.mp hy with h | h
      · exact Or.inr ⟨x, List.mem_cons_self x xs, h⟩
      · exact Or.inl (List.mem_cons_of_mem _ h)
    | succ n =>
      rcases List.mem_cons.mp hy with h | h
      · exact Or.inl (h ▸ List.mem_cons_self x xs)
      · rcases ih h with h1 | ⟨z, hz, hzy⟩
        · exact Or.inl (List.mem_cons_of_mem _ h1)
        · exact Or.inr ⟨z, List.mem_cons_of_mem _ hz, hzy⟩

theorem mem_revoke {live : List Nat} {h x : Nat} :
    x ∈ revoke live h ↔ x ∈ live ∧ x ≠ h := by
  simp [revoke, List.mem_filter]

/-- In a well-formed state, every handle stored in an indexed item sits
below the allocation counter. -/
theorem WF_handle_lt {s : AppState} {i : Nat} {it : ImageItem}
    (hwf : WF s) (hit : s.images.get? i = some it) :
    it.preview < s.nextHandle ∧
    (∀ o, it.compressedPreview = some o → o < s.nextHandle) := by
  have hmem : it ∈ s.images := List.get?_mem hit
  have hhb := hwf.2 it hmem
  refine ⟨hhb it.preview (by simp [handlesOf]), ?_⟩
  intro o ho
  exact hhb o (by simp [handlesOf, ho])

/-- One completed preview regeneration: the slot receives the freshly
allocated handle, the previous occupant (if any) is revoked, no other
item changes, no stray handle becomes live, and well-formedness is
preserved. -/
theorem completePreviewSuccess_spec (s : AppState) (i blobSize : Nat) (it : ImageItem)
    (hwf : WF s) (hit : s.images.get? i = some it) :
    (completePreviewSuccess s i blobSize).nextHandle = s.nextHandle + 1 ∧
    (completePreviewSuccess s i blobSize).images.get? i =
      some { it with
               compressedPreview := some s.nextHandle
               compressedSize := some blobSize
               processing := false } ∧
    (∀ j, j ≠ i → (completePreviewSuccess s i blobSize).images.get? j = s.images.get? j) ∧
    s.nextHandle ∈ (completePreviewSuccess s i blobSize).live ∧
    (∀ o, it.compressedPreview = some o → o ∉ (completePreviewSuccess s i blobSize).live) ∧
    (∀ x, x ∈ (completePreviewSuccess s i blobSize).live → x ∈ s.live ∨ x = s.nextHandle) ∧
    WF (completePreviewSuccess s i blobSize) := by
  have hpl := WF_handle_lt hwf hit
  have hlive : ∀ x ∈ s.live, x < s.nextHandle := hwf.1
  have hitems := hwf.2
  have himg : (completePreviewSuccess s i blobSize).images =
      updateAt s.images i (fun x =>
        { x with
            compressedPreview := some s.nextHandle
            compressedSize := some blobSize
            processing := false }) := rfl
  have hnh : (completePreviewSuccess s i blobSize).nextHandle = s.nextHandle + 1 := rfl
  have hmemf : ∀ y ∈ (completePreviewSuccess s i blobSize).images,
      ∀ h2 ∈ handlesOf y, h2 < s.nextHandle + 1 := by
    intro y hy h2 hh2
    rw [himg] at hy
    rcases mem_updateAt hy with h1 | ⟨z, hz, rfl⟩
    · exact Nat.lt_succ_of_lt (hitems y h1 h2 hh2)
    · simp only [handlesOf] at hh2
      rcases List.mem_cons.mp hh2 with h3 | h3
      · exact h3 ▸ Nat.lt_succ_of_lt (hitems z hz z.preview (by simp [handlesOf]))
      · simp at h3; omega
  have hit' : s.images[i]? = some it := List.get?_eq_getElem? s.images i ▸ hit
  rcases hcp : it.compressedPreview with _ | o
  · have hlv : (completePreviewSuccess s i blobSize).live = s.live ++ [s.nextHandle] := by
      simp [completePreviewSuccess, hit', hcp]
    refine ⟨hnh, ?_, ?_, ?_, ?_, ?_, ?_⟩
    · rw [himg, updateAt_get?_self, hit]; rfl
    · intro j hj; rw [himg]; exact updateAt_get?_ne _ _ hj
    · rw [hlv]; exact List.mem_append.mpr (Or.inr (by simp))
    · intro o' ho'
      exact Option.noConfusion ho'
    · intro x hx
      rw [hlv] at hx
      rcases List.mem_append.mp hx with h1 | h1
      · exact Or.inl h1
      · exact Or.inr (by simpa using h1)
    · refine ⟨?_, ?_⟩
      · intro x hx
        rw [hlv] at hx
        rw [hnh]
        rcases List.mem_append.mp hx with h1 | h1
        · exact Nat.lt_succ_of_lt (hlive x h1)
        · simp at h1; omega
      · intro y hy
        rw [hnh]
        exact hmemf y hy
  · have holt : o < s.nextHandle := hpl.2 o hcp
    have hlv : (completePreviewSuccess s i blobSize).live =
        revoke (s.live ++ [s.nextHandle]) o := by
      simp [completePreviewSuccess, hit', hcp]
    refine ⟨hnh, ?_, ?_, ?_, ?_, ?_, ?_⟩
    · rw [himg, updateAt_get?_self, hit]; rfl
    · intro j hj; rw [himg]; exact updateAt_get?_ne _ _ hj
    · rw [hlv]
      exact mem_revoke.mpr ⟨List.mem_append.mpr (Or.inr (by simp)), by omega⟩
    · intro o' ho' hmem
      cases Option.some.inj ho'
      rw [hlv] at hmem
      exact (mem_revoke.mp hmem).2 rfl
    · intro x hx
      rw [hlv] at hx
      rcases List.mem_append.mp (mem_revoke.mp hx).1 with h1 | h1
      · exact Or.inl h1
      · exact Or.inr (by simpa using h1)
    · refine ⟨?_, ?_⟩
      · intro x hx
        rw [hlv] at hx
        rw [hnh]
        rcases List.mem_append.mp (mem_revoke.mp hx).1 with h1 | h1
        · exact Nat.lt_succ_of_lt (hlive x h1)
        · simp at h1; omega
      · intro y hy
        rw [hnh]
        exact hmemf y hy

/-- Iterating completed preview regenerations: after `rest.length + 1`
completions the slot holds the last allocated handle, which is live; all
earlier allocations of the run and the original occupant are revoked;
dead handles below the starting counter stay dead; well-formedness is
preserved. -/
theorem runPreviews_spec (rest : List Nat) :
    ∀ (s : AppState) (i sz : Nat) (it : ImageItem), WF s →
      s.images.get? i = some it →
      (runPreviews s i (sz :: rest)).nextHandle = s.nextHandle + (rest.length + 1) ∧
      ((runPreviews s i (sz :: rest)).images.get? i).bind (fun x => x.compressedPreview) =
        some (s.nextHandle + rest.length) ∧
      (s.nextHandle + rest.length) ∈ (runPreviews s i (sz :: rest)).live ∧
      (∀ j, j < rest.length → (s.nextHandle + j) ∉ (runPreviews s i (sz :: rest)).live) ∧
      (∀ o, it.compressedPreview = some o → o ∉ (runPreviews s i (sz :: rest)).live) ∧
      (∀ x, x < s.nextHandle → x ∉ s.live → x ∉ (runPreviews s i (sz :: rest)).live) ∧
      WF (runPreviews s i (sz :: rest)) := by
  induction rest with
  | nil =>
    intro s i sz it hwf hit
    obtain ⟨h1, h2, h3, h4, h5, h6, h7⟩ := completePreviewSuccess_spec s i sz it hwf hit
    have hrun : runPreviews s i [sz] = completePreviewSuccess s i sz := rfl
    rw [hrun]
    refine ⟨by simp [h1], ?_, ?_, ?_, h5, ?_, h7⟩
    · rw [h2]; rfl
    · simpa using h4
    · intro j hj
      simp only [List.length_nil] at hj
      omega
    · intro x hx hxl hmem
      rcases h6 x hmem with hin | rfl
      · exact hxl hin
      · omega
  | cons sz2 rest2 ih =>
    intro s i sz it hwf hit
    obtain ⟨h1, h2, h3, h4, h5, h6, h7⟩ := completePreviewSuccess_spec s i sz it hwf hit
    obtain ⟨g1, g2, g3, g4, g5, g6, g7⟩ :=
      ih (completePreviewSuccess s i sz) i sz2
        { it with
            compressedPreview := some s.nextHandle
            compressedSize := some sz
            processing := false } h7 h2
    have hrun : runPreviews s i (sz :: sz2 :: rest2) =
        runPreviews (completePreviewSuccess s i sz) i (sz2 :: rest2) := rfl
    rw [hrun]
    have hofs : (completePreviewSuccess s i sz).nextHandle + rest2.length =
        s.nextHandle + (sz2 :: rest2).length := by
      rw [h1]; simp [List.length_cons]; omega
    refine ⟨?_, ?_, ?_, ?_, ?_, ?_, g7⟩
    · rw [g1, h1]; simp [List.length_cons]; omega
    · rw [g2, hofs]
    · rw [← hofs]; exact g3
    · intro j hj
      cases j with
      | zero => simpa using g5 s.nextHandle rfl
      | succ m =>
        rw [show s.nextHandle + (m + 1) = (completePreviewSuccess s i sz).nextHandle + m by
          rw [h1]; omega]
        exact g4 m (by simp [List.length_cons] at hj; omega)
    · intro o ho hmem
      have hos : o ∉ (completePreviewSuccess s i sz).live := h5 o ho
      have holt : o < s.nextHandle := (WF_handle_lt hwf hit).2 o ho
      exact g6 o (by rw [h1]; omega) hos hmem
    · intro x hx hxl hmem
      have hxs : x ∉ (completePreviewSuccess s i sz).live := by
        intro hmem1
        rcases h6 x hmem1 with hin | rfl
        · exact hxl hin
        · omega
      exact g6 x (by rw [h1]; omega) hxs hmem

/-- The explicit-compress success continuation also swaps the preview
slot hygienically: fresh handle in, previous occupant revoked. -/
theorem compressImageSuccess_revokes (s : AppState) (i blobId blobSize : Nat) (it : ImageItem)
    (hwf : WF s) (hit : s.images.get? i = some it) :
    s.nextHandle ∈ (compressImageSuccess s i blobId blobSize).live ∧
    (∀ o, it.compressedPreview = some o →
      o ∉ (compressImageSuccess s i blobId blobSize).live) ∧
    (compressImageSuccess s i blobId blobSize).images.get? i =
      some { it with
               compressed := some blobId
               compressedSize := some blobSize
               compressedPreview := some s.nextHandle
               processing := false } := by
  have hpl := WF_handle_lt hwf hit
  have hit' : s.images[i]? = some it := List.get?_eq_getElem? s.images i ▸ hit
  have himg : (compressImageSuccess s i blobId blobSize).images =
      updateAt s.images i (fun x =>
        { x with
            compressed := some blobId
            compressedSize := some blobSize
            compressedPreview := some s.nextHandle
            processing := false }) := rfl
  rcases hcp : it.compressedPreview with _ | o
  · have hlv : (compressImageSuccess s i blobId blobSize).live =
        s.live ++ [s.nextHandle] := by
      simp [compressImageSuccess, hit', hcp]
    refine ⟨?_, ?_, ?_⟩
    · rw [hlv]; exact List.mem_append.mpr (Or.inr (by simp))
    · intro o' ho'; exact Option.noConfusion ho'
    · rw [himg, updateAt_get?_self, hit]; rfl
  · have holt : o < s.nextHandle := hpl.2 o hcp
    have hlv : (compressImageSuccess s i blobId blobSize).live =
        revoke (s.live ++ [s.nextHandle]) o := by
      simp [compressImageSuccess, hit', hcp]
    refine ⟨?_, ?_, ?_⟩
    · rw [hlv]
      exact mem_revoke.mpr ⟨List.mem_append.mpr (Or.inr (by simp)), by omega⟩
    · intro o' ho' hmem
      cases Option.some.inj ho'
      rw [hlv] at hmem
      exact (mem_revoke.mp hmem).2 rfl
    · rw [himg, updateAt_get?_self, hit]; rfl

/-- Removing an item revokes both of its stored handles. -/
theorem removeImage_revokes (s : AppState) (i : Nat) (it : ImageItem)
    (hit : s.images.get? i = some it) :
    it.preview ∉ (removeImage s i).live ∧
    (∀ o, it.compressedPreview = some o → o ∉ (removeImage s i).live) := by
  have hit' : s.images[i]? = some it := List.get?_eq_getElem? s.images i ▸ hit
  rcases hcp : it.compressedPreview with _ | c
  · have hlv : (removeImage s i).live = revoke s.live it.preview := by
      simp [removeImage, hit', hcp]
    refine ⟨?_, ?_⟩
    · intro hmem
      rw [hlv] at hmem
      exact (mem_revoke.mp hmem).2 rfl
    · intro o' ho'; exact Option.noConfusion ho'
  · have hlv : (removeImage s i).live = revoke (revoke s.live it.preview) c := by
      simp [removeImage, hit', hcp]
    refine ⟨?_, ?_⟩
    · intro hmem
      rw [hlv] at hmem
      exact (mem_revoke.mp (mem_revoke.mp hmem).1).2 rfl
    · intro o' ho' hmem
      cases Option.some.inj ho'
      rw [hlv] at hmem
      exact (mem_revoke.mp hmem).2 rfl

/-- C3: after K = rest.length + 1 consecutive completed preview
regenerations on one item exactly one preview handle is live — the slot
holds the last allocated handle, which is live, while the K−1 earlier
allocations and the pre-existing occupant are all revoked; the explicit
compress path also revokes the slot's previous occupant when assigning
its fresh handle; and removing an item revokes both of its stored
handles (the source preview and any compressed preview). -/
theorem preview_handle_hygiene (s : AppState) (i : Nat) (it : ImageItem)
    (hwf : WF s) (hit : s.images.get? i = some it) :
    (∀ sz rest,
      ((runPreviews s i (sz :: rest)).images.get? i).bind (fun x => x.compressedPreview) =
          some (s.nextHandle + rest.length) ∧
      (s.nextHandle + rest.length) ∈ (runPreviews s i (sz :: rest)).live ∧
      (∀ j, j < rest.length → (s.nextHandle + j) ∉ (runPreviews s i (sz :: rest)).live) ∧
      (∀ o, it.compressedPreview = some o → o ∉ (runPreviews s i (sz :: rest)).live)) ∧
    (∀ blobId blobSize,
      s.nextHandle ∈ (compressImageSuccess s i blobId blobSize).live ∧
      ∀ o, it.compressedPreview = some o →
        o ∉ (compressImageSuccess s i blobId blobSize).live) ∧
    (it.preview ∉ (removeImage s i).live ∧
      ∀ o, it.compressedPreview = some o → o ∉ (removeImage s i).live) := by
  refine ⟨?_, ?_, removeImage_revokes s i it hit⟩
  · intro sz rest
    obtain ⟨g1, g2, g3, g4, g5, g6, g7⟩ := runPreviews_spec rest s i sz it hwf hit
    exact ⟨g2, g3, g4, g5⟩
  · intro blobId blobSize
    obtain ⟨c1, c2, c3⟩ := compressImageSuccess_revokes s i blobId blobSize it hwf hit
    exact ⟨c1, c2⟩

/-- Witness for C3: one ingested item, two completed regenerations
(K = 2): the second allocated handle (3) is live, the first (2) is
revoked. -/
theorem preview_handle_hygiene_witness :
    WF (ingestImage initState 0 100 (10, 10)) ∧
    (2 + 1) ∈ (runPreviews (ingestImage initState 0 100 (10, 10)) 0 [5, 7]).live ∧
    (2 + 0) ∉ (runPreviews (ingestImage initState 0 100 (10, 10)) 0 [5, 7]).live :=
  ⟨by decide,
   ((preview_handle_hygiene (ingestImage initState 0 100 (10, 10)) 0 _
      (by decide) rfl).1 5 [7]).2.1,
   ((preview_handle_hygiene (ingestImage initState 0 100 (10, 10)) 0 _
      (by decide) rfl).1 5 [7]).2.2.1 0 (by decide)⟩

/-- C5: a successful crop apply replaces the item's source — file
identity, byte size and original dimensions — hands it the freshly
allocated preview handle while revoking the old preview and any
compressed preview, clears all compression-derived state
(compressedPreview, compressed blob, compressedSize), keeps the
quality/width/height settings, and leaves every other item untouched. -/
theorem applyCrop_replaces_source (s : AppState) (i : Nat) (it : ImageItem)
    (hwf : WF s) (hit : s.images.get? i = some it)
    (newFileId newSize : Nat) (newDims : Int × Int) :
    (applyCropSuccess s i newFileId newSize newDims).images.get? i =
      some { it with
               fileId := newFileId
               preview := s.nextHandle
               originalSize := newSize
               dimensions := some newDims
               compressedPreview := none
               compressed := none
               compressedSize := none } ∧
    s.nextHandle ∈ (applyCropSuccess s i newFileId newSize newDims).live ∧
    it.preview ∉ (applyCropSuccess s i newFileId newSize newDims).live ∧
    (∀ o, it.compressedPreview = some o →
      o ∉ (applyCropSuccess s i newFileId newSize newDims).live) ∧
    (∀ j, j ≠ i →
      (applyCropSuccess s i newFileId newSize newDims).images.get? j =
        s.images.get? j) := by
  have hpl := WF_handle_lt hwf hit
  have hit' : s.images[i]? = some it := List.get?_eq_getElem? s.images i ▸ hit
  have himg : (applyCropSuccess s i newFileId newSize newDims).images =
      updateAt s.images i (fun old =>
        { old with
            fileId := newFileId
            preview := s.nextHandle
            originalSize := newSize
            dimensions := some newDims
            compressedPreview := none
            compressed := none
            compressedSize := none }) := by
    simp [applyCropSuccess, hit']
  rcases hcp : it.compressedPreview with _ | c
  · have hlv : (applyCropSuccess s i newFileId newSize newDims).live =
        revoke (s.live ++ [s.nextHandle, s.nextHandle + 1]) it.preview := by
      simp [applyCropSuccess, hit', hcp]
    refine ⟨?_, ?_, ?_, ?_, ?_⟩
    · rw [himg, updateAt_get?_self, hit]; rfl
    · rw [hlv]
      refine mem_revoke.mpr ⟨List.mem_append.mpr (Or.inr (by simp)), ?_⟩
      have := hpl.1
      omega
    · intro hmem
      rw [hlv] at hmem
      exact (mem_revoke.mp hmem).2 rfl
    · intro o' ho'; exact Option.noConfusion ho'
    · intro j hj; rw [himg]; exact updateAt_get?_ne _ _ hj
  · have hclt : c < s.nextHandle := hpl.2 c hcp
    have hlv : (applyCropSuccess s i newFileId newSize newDims).live =
        revoke (revoke (s.live ++ [s.nextHandle, s.nextHandle + 1]) it.preview) c := by
      simp [applyCropSuccess, hit', hcp]
    refine ⟨?_, ?_, ?_, ?_, ?_⟩
    · rw [himg, updateAt_get?_self, hit]; rfl
    · rw [hlv]
      refine mem_revoke.mpr ⟨mem_revoke.mpr ⟨List.mem_append.mpr (Or.inr (by simp)), ?_⟩, ?_⟩
      · have := hpl.1
        omega
      · omega
    · intro hmem
      rw [hlv] at hmem
      exact (mem_revoke.mp (mem_revoke.mp hmem).1).2 rfl
    · intro o' ho' hmem
      cases Option.some.inj ho'
      rw [hlv] at hmem
      exact (mem_revoke.mp hmem).2 rfl
    · intro j hj; rw [himg]; exact updateAt_get?_ne _ _ hj

/-- Witness for C5: cropping an ingested 8×6 item to 4×3 replaces its
source fields, clears compression state, and revokes the old preview
handle 0. -/
theorem applyCrop_replaces_source_witness :
    WF (ingestImage initState 3 100 (8, 6)) ∧
    (applyCropSuccess (ingestImage initState 3 100 (8, 6)) 0 4 50 (4, 3)).images.get? 0 =
      some { fileId := 4
             preview := 2
             compressedPreview := none
             compressed := none
             originalSize := 50
             compressedSize := none
             processing := false
             dimensions := some (4, 3)
             quality := 75
             width := none
             height := none } ∧
    (0 : Nat) ∉ (applyCropSuccess (ingestImage initState 3 100 (8, 6)) 0 4 50 (4, 3)).live :=
  ⟨by decide,
   (applyCrop_replaces_source (ingestImage initState 3 100 (8, 6)) 0 _
      (by decide) rfl 4 50 (4, 3)).1,
   (applyCrop_replaces_source (ingestImage initState 3 100 (8, 6)) 0 _
      (by decide) rfl 4 50 (4, 3)).2.2.1⟩

/-- C6: a failed crop materialisation only reports an error: the whole
registry — every item, every handle, every timer — is exactly as it was
before the apply. -/
theorem applyCrop_failure_leaves_item_unmodified (s : AppState) :
    (applyCropFailure s).images = s.images ∧
    (applyCropFailure s).live = s.live ∧
    (applyCropFailure s).timers = s.timers ∧
    (applyCropFailure s).nextHandle = s.nextHandle ∧
    (applyCropFailure s).errorCount = s.errorCount + 1 :=
  ⟨rfl, rfl, rfl, rfl, rfl⟩

/-- C7: an encode-pipeline failure is local to its item: both failure
continuations (explicit compress and preview regeneration) only clear
the item's processing flag — its settings and every other field survive
in the record — leave every other item, the timers and the handle ledger
unchanged, dispatch nothing new, and at most add one user-visible error
notification. -/
theorem encode_failure_local_and_settings_preserved (s : AppState) (i : Nat)
    (it : ImageItem) (hit : s.images.get? i = some it) :
    ((compressImageFailure s i).images.get? i = some { it with processing := false } ∧
     (∀ j, j ≠ i → (compressImageFailure s i).images.get? j = s.images.get? j) ∧
     (compressImageFailure s i).timers = s.timers ∧
     (compressImageFailure s i).live = s.live ∧
     (compressImageFailure s i).errorCount = s.errorCount + 1) ∧
    ((completePreviewFailure s i).images.get? i = some { it with processing := false } ∧
     (∀ j, j ≠ i → (completePreviewFailure s i).images.get? j = s.images.get? j) ∧
     (completePreviewFailure s i).timers = s.timers ∧
     (completePreviewFailure s i).live = s.live ∧
     (completePreviewFailure s i).errorCount = s.errorCount) := by
  have himg1 : (compressImageFailure s i).images =
      updateAt s.images i (fun x => { x with processing := false }) := rfl
  have himg2 : (completePreviewFailure s i).images =
      updateAt s.images i (fun x => { x with processing := false }) := rfl
  constructor
  · refine ⟨?_, ?_, rfl, rfl, rfl⟩
    · rw [himg1, updateAt_get?_self, hit]; rfl
    · intro j hj; rw [himg1]; exact updateAt_get?_ne _ _ hj
  · refine ⟨?_, ?_, rfl, rfl, rfl⟩
    · rw [himg2, updateAt_get?_self, hit]; rfl
    · intro j hj; rw [himg2]; exact updateAt_get?_ne _ _ hj

/-- Witness for C7: on a one-item registry, the compress failure bumps
the notification count to 1 and leaves the handle ledger unchanged. -/
theorem encode_failure_local_witness :
    (compressImageFailure (ingestImage initState 0 100 (10, 10)) 0).errorCount = 1 ∧
    (compressImageFailure (ingestImage initState 0 100 (10, 10)) 0).live =
      (ingestImage initState 0 100 (10, 10)).live :=
  ⟨(encode_failure_local_and_settings_preserved (ingestImage initState 0 100 (10, 10))
      0 _ rfl).1.2.2.2.2,
   (encode_failure_local_and_settings_preserved (ingestImage initState 0 100 (10, 10))
      0 _ rfl).1.2.2.2.1⟩

/-- The `fireTimer` step either leaves the array alone or only sets the
processing flag of one item. -/
theorem fireTimer_images_cases (s : AppState) (i : Nat) :
    (fireTimer s i).1.images = s.images ∨
    (fireTimer s i).1.images = updateAt s.images i (fun x => { x with processing := true }) := by
  unfold fireTimer
  split
  · exact Or.inl rfl
  · dsimp only
    split
    · exact Or.inl rfl
    · exact Or.inr rfl

/-- The `compressImageStart` step either leaves the array alone or only
sets the processing flag of one item. -/
theorem compressImageStart_images_cases (s : AppState) (i : Nat) :
    (compressImageStart s i).1.images = s.images ∨
    (compressImageStart s i).1.images =
      updateAt s.images i (fun x => { x with processing := true }) := by
  unfold compressImageStart
  split
  · exact Or.inl rfl
  · exact Or.inr rfl

/-- The crop-success step either leaves the array alone or replaces the
source fields of one item, keeping its settings. -/
theorem applyCropSuccess_images_cases (s : AppState) (i : Nat)
    (newFileId newSize : Nat) (newDims : Int × Int) :
    (applyCropSuccess s i newFileId newSize newDims).images = s.images ∨
    (applyCropSuccess s i newFileId newSize newDims).images =
      updateAt s.images i (fun old =>
        { old with
            fileId := newFileId
            preview := s.nextHandle
            originalSize := newSize
            dimensions := some newDims
            compressedPreview := none
            compressed := none
            compressedSize := none }) := by
  unfold applyCropSuccess
  split
  · exact Or.inl rfl
  · exact Or.inr rfl

/-- The items surviving a removal were all items before it. -/
theorem removeImage_images_sub {s : AppState} {i : Nat} {it : ImageItem}
    (hit : it ∈ (removeImage s i).images) : it ∈ s.images := by
  unfold removeImage at hit
  split at hit
  · exact hit
  · exact List.mem_of_mem_eraseIdx hit

/-- Transfer of the settings invariant along an update that keeps the
three settings fields. -/
theorem SettingsInv_congr {it it2 : ImageItem} (h : SettingsInv it)
    (hq : it2.quality = it.quality) (hw : it2.width = it.width)
    (hh : it2.height = it.height) : SettingsInv it2 := by
  unfold SettingsInv at h ⊢
  rw [hq, hw, hh]
  exact h

/-- Every single registry command with in-range supplied values
preserves the settings invariant on all items. -/
theorem step_preserves_SettingsInv (s : AppState) (c : Command)
    (hs : ∀ it ∈ s.images, SettingsInv it) (hc : InRange c) :
    ∀ it ∈ (step s c).images, SettingsInv it := by
  cases c with
  | ingest f sz d =>
    intro it hit
    have h0 : it ∈ s.images ++
        [⟨f, s.nextHandle, none, none, sz, none, false, some d, 75, none, none⟩] := hit
    rcases List.mem_append.mp h0 with h | h
    · exact hs it h
    · have := List.mem_singleton.mp h
      subst this
      exact ⟨by norm_num, by norm_num, trivial, trivial⟩
  | updateSetting i u =>
    intro it hit
    have h0 : it ∈ updateAt s.images i (fun x => applySetting x u) := hit
    rcases mem_updateAt h0 with h | ⟨x, hx, rfl⟩
    · exact hs it h
    · have hxinv := hs x hx
      cases u with
      | quality v => exact ⟨hc.1, hc.2, hxinv.2.2.1, hxinv.2.2.2⟩
      | width v => exact ⟨hxinv.1, hxinv.2.1, hc, hxinv.2.2.2⟩
      | height v => exact ⟨hxinv.1, hxinv.2.1, hxinv.2.2.1, hc⟩
  | fire i =>
    intro it hit
    rcases fireTimer_images_cases s i with h | h
    · rw [show (step s (Command.fire i)).images = (fireTimer s i).1.images from rfl, h] at hit
      exact hs it hit
    · rw [show (step s (Command.fire i)).images = (fireTimer s i).1.images from rfl, h] at hit
      rcases mem_updateAt hit with h1 | ⟨x, hx, rfl⟩
      · exact hs it h1
      · exact SettingsInv_congr (hs x hx) rfl rfl rfl
  | previewSuccess i sz =>
    intro it hit
    have h0 : it ∈ updateAt s.images i (fun x =>
        { x with
            compressedPreview := some s.nextHandle
            compressedSize := some sz
            processing := false }) := hit
    rcases mem_updateAt h0 with h | ⟨x, hx, rfl⟩
    · exact hs it h
    · exact SettingsInv_congr (hs x hx) rfl rfl rfl
  | previewFailure i =>
    intro it hit
    have h0 : it ∈ updateAt s.images i (fun x => { x with processing := false }) := hit
    rcases mem_updateAt h0 with h | ⟨x, hx, rfl⟩
    · exact hs it h
    · exact SettingsInv_congr (hs x hx) rfl rfl rfl
  | compressStart i =>
    intro it hit
    rcases compressImageStart_images_cases s i with h | h
    · rw [show (step s (Command.compressStart i)).images =
          (compressImageStart s i).1.images from rfl, h] at hit
      exact hs it hit
    · rw [show (step s (Command.compressStart i)).images =
          (compressImageStart s i).1.images from rfl, h] at hit
      rcases mem_updateAt hit with h1 | ⟨x, hx, rfl⟩
      · exact hs it h1
      · exact SettingsInv_congr (hs x hx) rfl rfl rfl
  | compressSuccess i b sz =>
    intro it hit
    have h0 : it ∈ updateAt s.images i (fun x =>
        { x with
            compressed := some b
            compressedSize := some sz
            compressedPreview := some s.nextHandle
            processing := false }) := hit
    rcases mem_updateAt h0 with h | ⟨x, hx, rfl⟩
    · exact hs it h
    · exact SettingsInv_congr (hs x hx) rfl rfl rfl
  | compressFailure i =>
    intro it hit
    have h0 : it ∈ updateAt s.images i (fun x => { x with processing := false }) := hit
    rcases mem_updateAt h0 with h | ⟨x, hx, rfl⟩
    · exact hs it h
    · exact SettingsInv_congr (hs x hx) rfl rfl rfl
  | cropSuccess i f sz d =>
    intro it hit
    rcases applyCropSuccess_images_cases s i f sz d with h | h
    · rw [show (step s (Command.cropSuccess i f sz d)).images =
          (applyCropSuccess s i f sz d).images from rfl, h] at hit
      exact hs it hit
    · rw [show (step s (Command.cropSuccess i f sz d)).images =
          (applyCropSuccess s i f sz d).images from rfl, h] at hit
      rcases mem_updateAt hit with h1 | ⟨x, hx, rfl⟩
      · exact hs it h1
      · exact SettingsInv_congr (hs x hx) rfl rfl rfl
  | cropFailure =>
    intro it hit
    exact hs it hit
  | remove i =>
    intro it hit
    exact hs it (removeImage_images_sub hit)

/-- The settings invariant is preserved along any command sequence with
in-range supplied values. -/
theorem runCommands_preserves_SettingsInv (cs : List Command) :
    ∀ s : AppState, (∀ it ∈ s.images, SettingsInv it) → (∀ c ∈ cs, InRange c) →
      ∀ it ∈ (runCommands s cs).images, SettingsInv it := by
  induction cs with
  | nil => intro s hs _; exact hs
  | cons c cs2 ih =>
    intro s hs hcs
    exact ih (step s c)
      (step_preserves_SettingsInv s c hs (hcs c (List.mem_cons_self c cs2)))
      (fun c2 hc2 => hcs c2 (List.mem_cons_of_mem c hc2))

theorem mathRound_close (q : ℚ) : |(mathRound q : ℚ) - q| ≤ 1 / 2 := by
  have h1 : ((⌊q + 1 / 2⌋ : ℤ) : ℚ) ≤ q + 1 / 2 := Int.floor_le _
  have h2 : q + 1 / 2 < (⌊q + 1 / 2⌋ : ℤ) + 1 := Int.lt_floor_add_one _
  rw [abs_le]; unfold mathRound
  constructor <;> linarith

theorem mathRound_intCast (n : ℤ) : mathRound (n : ℚ) = n := by
  have h0 : ⌊(1 / 2 : ℚ)⌋ = 0 := by norm_num
  unfold mathRound
  rw [Int.floor_int_add, h0, add_zero]

/-- C4: the dimension resolver returns the original dimensions when no
truthy target is given, exactly the two targets when both are given, and
with exactly one target keeps it and derives the other dimension within
half a pixel of the exact aspect-preserving value. -/
theorem calculateFinalDimensions_resolves (img : ImageItem) (w h : Int)
    (hd : img.dimensions = some (w, h)) (hw : 0 < w) (hh : 0 < h)
    (htw : posOpt img.width) (hth : posOpt img.height) :
    (img.width = none → img.height = none →
      calculateFinalDimensions img = some (w, h)) ∧
    (∀ tw th, img.width = some tw → img.height = some th →
      calculateFinalDimensions img = some (tw, th)) ∧
    (∀ tw, img.width = some tw → img.height = none →
      ∃ r, calculateFinalDimensions img = some (tw, r) ∧
        |(r : ℚ) - (tw : ℚ) * (h : ℚ) / (w : ℚ)| ≤ 1 / 2) ∧
    (∀ th, img.height = some th → img.width = none →
      ∃ r, calculateFinalDimensions img = some (r, th) ∧
        |(r : ℚ) - (th : ℚ) * (w : ℚ) / (h : ℚ)| ≤ 1 / 2) := by
  refine ⟨?_, ?_, ?_, ?_⟩
  · intro h1 h2
    simp [calculateFinalDimensions, hd, h1, h2, truthy]
  · intro tw th h1 h2
    rw [h1] at htw; rw [h2] at hth
    have htw' : (0 : Int) < tw := htw
    have hth' : (0 : Int) < th := hth
    simp [calculateFinalDimensions, hd, h1, h2, truthy, htw'.ne', hth'.ne']
  · intro tw h1 h2
    rw [h1] at htw
    have htw' : (0 : Int) < tw := htw
    refine ⟨mathRound ((tw : ℚ) / ((w : ℚ) / (h : ℚ))), ?_, ?_⟩
    · simp [calculateFinalDimensions, hd, h1, h2, truthy, htw'.ne']
    · rw [div_div_eq_mul_div]
      exact mathRound_close _
  · intro th h1 h2
    rw [h1] at hth
    have hth' : (0 : Int) < th := hth
    refine ⟨mathRound ((th : ℚ) * ((w : ℚ) / (h : ℚ))), ?_, ?_⟩
    · simp [calculateFinalDimensions, hd, h1, h2, truthy, hth'.ne']
    · rw [mul_div_assoc]
      exact mathRound_close _

/-- Witness for C4 at the specification's example: original 1000×500
with target width 400 resolves to (400, 200). -/
theorem calculateFinalDimensions_resolves_witness :
    ((0 : Int) < 1000 ∧ (0 : Int) < 500 ∧ posOpt sampleItem.width) ∧
    (∃ r, calculateFinalDimensions sampleItem = some (400, r) ∧
      |(r : ℚ) - (400 : ℚ) * (500 : ℚ) / (1000 : ℚ)| ≤ 1 / 2) ∧
    calculateFinalDimensions sampleItem = some (400, 200) :=
  ⟨by decide,
   (calculateFinalDimensions_resolves sampleItem 1000 500 rfl (by decide)
      (by decide) (by decide) (by decide)).2.2.1 400 rfl rfl,
   by norm_num [calculateFinalDimensions, sampleItem, truthy, mathRound]⟩

/-- C9: the dimension resolver is idempotent — resolving the resolved
dimensions again with the same targets returns the same result.  It is
total and pure by construction as a Lean function. -/
theorem calculateFinalDimensions_idempotent (img : ImageItem) (w h : Int)
    (hd : img.dimensions = some (w, h)) (hw : 0 < w) (hh : 0 < h)
    (htw : posOpt img.width) (hth : posOpt img.height) :
    calculateFinalDimensions { img with dimensions := calculateFinalDimensions img } =
      calculateFinalDimensions img := by
  rcases himgw : img.width with _ | tw <;> rcases himgh : img.height with _ | th
  · simp [calculateFinalDimensions, hd, himgw, himgh, truthy]
  · rw [himgh] at hth
    have hth' : (0 : Int) < th := hth
    have hthq : ((th : ℚ)) ≠ 0 := Int.cast_ne_zero.mpr hth'.ne'
    simp only [calculateFinalDimensions, hd, himgw, himgh, truthy,
      if_neg hth'.ne']
    rcases eq_or_ne (mathRound ((th : ℚ) * ((w : ℚ) / (h : ℚ)))) 0 with hr | hr
    · rw [hr]
      norm_num [mathRound]
    · have hrq : ((mathRound ((th : ℚ) * ((w : ℚ) / (h : ℚ))) : ℚ)) ≠ 0 :=
        Int.cast_ne_zero.mpr hr
      rw [show (th : ℚ) * ((mathRound ((th : ℚ) * ((w : ℚ) / (h : ℚ))) : ℚ) / (th : ℚ)) =
          ((mathRound ((th : ℚ) * ((w : ℚ) / (h : ℚ))) : ℚ)) by field_simp,
        mathRound_intCast]
  · rw [himgw] at htw
    have htw' : (0 : Int) < tw := htw
    have htwq : ((tw : ℚ)) ≠ 0 := Int.cast_ne_zero.mpr htw'.ne'
    simp only [calculateFinalDimensions, hd, himgw, himgh, truthy,
      if_neg htw'.ne']
    rcases eq_or_ne (mathRound ((tw : ℚ) / ((w : ℚ) / (h : ℚ)))) 0 with hr | hr
    · rw [hr]
      norm_num [mathRound]
    · have hrq : ((mathRound ((tw : ℚ) / ((w : ℚ) / (h : ℚ))) : ℚ)) ≠ 0 :=
        Int.cast_ne_zero.mpr hr
      rw [show (tw : ℚ) / ((tw : ℚ) / (mathRound ((tw : ℚ) / ((w : ℚ) / (h : ℚ))) : ℚ)) =
          ((mathRound ((tw : ℚ) / ((w : ℚ) / (h : ℚ))) : ℚ)) by field_simp,
        mathRound_intCast]
  · rw [himgw] at htw; rw [himgh] at hth
    have htw' : (0 : Int) < tw := htw
    have hth' : (0 : Int) < th := hth
    simp [calculateFinalDimensions, hd, himgw, himgh, truthy, htw'.ne', hth'.ne']

/-- Witness for C9 at the example item (1000×500, target width 400). -/
theorem calculateFinalDimensions_idempotent_witness :
    calculateFinalDimensions
        { sampleItem with dimensions := calculateFinalDimensions sampleItem } =
      calculateFinalDimensions sampleItem :=
  calculateFinalDimensions_idempotent sampleItem 1000 500 rfl (by decide)
    (by decide) (by decide) (by decide)

/-- C10: the size formatter returns "0 Bytes" at zero; for byte counts
below 1024³ the computed unit index is the floor logarithm, stays inside
the three-element unit array, and the value is the input scaled by the
matching power of 1024 rounded to two decimals (within 1/200 of exact);
at or above 1024³ the index reaches 3 and the unit lookup falls outside
the array (JavaScript `undefined`). -/
theorem formatSize_spec :
    formatSize 0 = { value := 0, unit := some "Bytes" } ∧
    (∀ b : Nat, 1 ≤ b → b < 1024 ^ 3 →
      Nat.log 1024 b < 3 ∧
      1024 ^ Nat.log 1024 b ≤ b ∧
      b < 1024 ^ (Nat.log 1024 b + 1) ∧
      (∃ u, (formatSize b).unit = some u ∧ u ∈ sizes) ∧
      |(formatSize b).value - (b : ℚ) / (1024 : ℚ) ^ Nat.log 1024 b| ≤ 1 / 200) ∧
    (∀ b : Nat, 1024 ^ 3 ≤ b →
      3 ≤ Nat.log 1024 b ∧ (formatSize b).unit = none) := by
  refine ⟨rfl, ?_, ?_⟩
  · intro b hb1 hb2
    have hbne : b ≠ 0 := by omega
    have hlog : Nat.log 1024 b < 3 := Nat.log_lt_of_lt_pow hbne hb2
    refine ⟨hlog, Nat.pow_log_le_self 1024 hbne,
      Nat.lt_pow_succ_log_self (by norm_num) b, ?_, ?_⟩
    · have h3 : Nat.log 1024 b = 0 ∨ Nat.log 1024 b = 1 ∨ Nat.log 1024 b = 2 := by
        omega
      rcases h3 with h3 | h3 | h3
      · exact ⟨"Bytes", by simp [formatSize, hbne, h3, sizes], by simp [sizes]⟩
      · exact ⟨"KB", by simp [formatSize, hbne, h3, sizes], by simp [sizes]⟩
      · exact ⟨"MB", by simp [formatSize, hbne, h3, sizes], by simp [sizes]⟩
    · have hclose := mathRound_close (((b : ℚ) / (1024 : ℚ) ^ Nat.log 1024 b) * 100)
      have hval : (formatSize b).value =
          (mathRound (((b : ℚ) / (1024 : ℚ) ^ Nat.log 1024 b) * 100) : ℚ) / 100 := by
        simp [formatSize, hbne]
      rw [hval, abs_le]
      rw [abs_le] at hclose
      constructor <;> linarith [hclose.1, hclose.2]
  · intro b hb
    have h9 : (0 : ℕ) < 1024 ^ 3 := by norm_num
    have hbne : b ≠ 0 := by omega
    have hlog : 3 ≤ Nat.log 1024 b := (Nat.pow_le_iff_le_log (by norm_num) hbne).mp hb
    refine ⟨hlog, ?_⟩
    obtain ⟨n, hn⟩ : ∃ n, Nat.log 1024 b = n + 3 := ⟨Nat.log 1024 b - 3, by omega⟩
    simp only [formatSize, if_neg hbne, hn]
    rfl

/-- Witness for C10 at 2048 bytes (inside the array: unit "KB") and at
1024³ bytes (unit lookup out of the array). -/
theorem formatSize_spec_witness :
    ((1 : ℕ) ≤ 2048 ∧ 2048 < 1024 ^ 3) ∧
    Nat.log 1024 2048 < 3 ∧
    (3 ≤ Nat.log 1024 (1024 ^ 3) ∧ (formatSize (1024 ^ 3)).unit = none) :=
  ⟨by norm_num, (formatSize_spec.2.1 2048 (by norm_num) (by norm_num)).1,
   formatSize_spec.2.2 (1024 ^ 3) (le_refl _)⟩

/-- C8 counterexample: `updateImageSettings` stores values unvalidated,
so a single width mutation carrying the parsed entry "-5" leaves the
registry with an item whose requested width is the negative value −5 —
the claimed never-negative invariant fails on this command sequence. -/
theorem updateSetting_accepts_negative_width :
    ((runCommands initState
        [Command.ingest 0 100 (10, 10),
         Command.updateSetting 0 (SettingUpdate.width (some (-5)))]).images.get? 0).map
        (fun it => it.width) = some (some (-5)) ∧
    ¬ (∀ it ∈ (runCommands initState
        [Command.ingest 0 100 (10, 10),
         Command.updateSetting 0 (SettingUpdate.width (some (-5)))]).images,
        nonnegOpt it.width) := by
  decide

/-- C8 (amended): ingestion establishes the invariants (quality 75,
width and height empty); every registry command whose supplied setting
values are themselves in range (quality in [1,100], nonnegative targets
— what the constrained slider delivers) preserves quality within [1,100]
and nonnegative width/height for every item; and an item with both
targets empty resolves to its original dimensions.  Without the
restriction on supplied values the invariant fails, because
`updateImageSettings` stores values unvalidated. -/
theorem settings_invariants_with_constrained_inputs :
    (∀ (s : AppState) (fileId fileSize : Nat) (dims : Int × Int),
      ∀ it ∈ (ingestImage s fileId fileSize dims).images,
        it ∈ s.images ∨ (it.quality = 75 ∧ it.width = none ∧ it.height = none)) ∧
    (∀ (cs : List Command) (s : AppState),
      (∀ it ∈ s.images, SettingsInv it) → (∀ c ∈ cs, InRange c) →
      ∀ it ∈ (runCommands s cs).images, SettingsInv it) ∧
    (∀ (img : ImageItem) (d : Int × Int), img.width = none → img.height = none →
      img.dimensions = some d → calculateFinalDimensions img = some d) := by
  refine ⟨?_, runCommands_preserves_SettingsInv, ?_⟩
  · intro s f sz d it hit
    have h0 : it ∈ s.images ++
        [⟨f, s.nextHandle, none, none, sz, none, false, some d, 75, none, none⟩] := hit
    rcases List.mem_append.mp h0 with h | h
    · exact Or.inl h
    · have := List.mem_singleton.mp h
      subst this
      exact Or.inr ⟨rfl, rfl, rfl⟩
  · intro img d h1 h2 h3
    obtain ⟨w, h⟩ := d
    simp [calculateFinalDimensions, h3, h1, h2, truthy]

/-- Witness for C8: from the empty registry, ingesting one file and
moving the quality slider to 50 keeps every item inside the
invariants. -/
theorem settings_invariants_witness :
    (∀ it ∈ initState.images, SettingsInv it) ∧
    (∀ c ∈ [Command.ingest 0 100 ((10 : Int), (10 : Int)),
            Command.updateSetting 0 (SettingUpdate.quality 50)], InRange c) ∧
    (∀ it ∈ (runCommands initState
        [Command.ingest 0 100 ((10 : Int), (10 : Int)),
         Command.updateSetting 0 (SettingUpdate.quality 50)]).images, SettingsInv it) :=
  ⟨by decide, by decide,
   settings_invariants_with_constrained_inputs.2.1
     [Command.ingest 0 100 ((10 : Int), (10 : Int)),
      Command.updateSetting 0 (SettingUpdate.quality 50)]
     initState (by decide) (by decide)⟩

/-- C1 evaluated at the failing input: two quality edits 75 → 60 → 80
within the quiet window coalesce into exactly one armed 1500 ms timer
and the committed state holds the latest quality 80, but the
regeneration the timer dispatches on firing runs at quality 60: the
`setTimeout` callback invokes the `updatePreview` of the render that
created the handler, whose `images` closure predates the final
mutation.  The claimed "latest settings at fire time" behaviour fails;
the dispatched settings are those of the snapshot captured when the last
timer was armed. -/
theorem debounce_fires_with_stale_snapshot_values :
    (let s2 := updateImageSettings (updateImageSettings
        (ingestImage initState 0 100 (10, 10)) 0 (SettingUpdate.quality 60)) 0
        (SettingUpdate.quality 80);
     (s2.timers.length = 1 ∧ ∀ t ∈ s2.timers, t.idx = 0 ∧ t.delay = DEBOUNCE_MS) ∧
     (s2.images.get? 0).map (fun it => it.quality) = some 80 ∧
     ((fireTimer s2 0).2).map (fun t => t.quality) = some 60) := by
  decide

/-- C2 evaluated at the failing schedule: two preview regenerations are
dispatched for the same item (quality edits 50 then 30, each timer
fired); the newer task completes first with a 10-byte blob, the older
task completes last with a 99-byte blob.  The source's completion
updater assigns unconditionally — there is no generation counter — so
the displayed preview afterwards is the older task's: compressedSize 99
and the handle allocated for the older result, not the newer one. -/
theorem stale_preview_overwrites_newer :
    (let s0 := ingestImage initState 0 100 (10, 10);
     let f1 := fireTimer (updateImageSettings s0 0 (SettingUpdate.quality 50)) 0;
     let f2 := fireTimer (updateImageSettings f1.1 0 (SettingUpdate.quality 30)) 0;
     let s3 := completePreviewSuccess f2.1 0 10;
     let s4 := completePreviewSuccess s3 0 99;
     f1.2.isSome = true ∧ f2.2.isSome = true ∧
     (s4.images.get? 0).map (fun it => it.compressedSize) = some (some 99) ∧
     (s4.images.get? 0).map (fun it => it.compressedPreview) = some (some 3)) := by
  decide

end ImageCompressor
